import Mathlib

/-!
Verification of the orchestrator ReAct loop
(`backend/agents/orchestrator_agent.py`).

Strings are modelled as `List Char` (`Str`).  Python's regular-expression
calls are embedded through a small token-sequence matcher (`matchToks`)
that reproduces the backtracking order of Python's `re` engine for the
pattern shapes actually used in the source: literal prefixes, `\s*`,
lazy groups `(.+?)`, a greedy group `(.+)`, `$`, and the lookahead
`(?=\nX|\Z)`.  `re.match` anchors at position 0; `re.search`
(`searchToks`) scans positions left to right.  Whitespace (`\s` and
`str.strip`) is modelled as the six ASCII whitespace characters and
lower-casing as ASCII lower-casing, matching the behaviour of the
Python runtime on the ASCII data the module handles.
-/

abbrev Str := List Char

/-- The six ASCII whitespace characters recognised by `\s` / `str.strip`. -/
def pyWs (c : Char) : Bool :=
  c == ' ' || c == '\t' || c == '\n' || c == '\r' || c == '\x0b' || c == '\x0c'

/-- ASCII lower-casing, as applied by `str.lower()` on ASCII text. -/
def lowerChar (c : Char) : Char :=
  if c = 'A' then 'a' else if c = 'B' then 'b' else if c = 'C' then 'c'
  else if c = 'D' then 'd' else if c = 'E' then 'e' else if c = 'F' then 'f'
  else if c = 'G' then 'g' else if c = 'H' then 'h' else if c = 'I' then 'i'
  else if c = 'J' then 'j' else if c = 'K' then 'k' else if c = 'L' then 'l'
  else if c = 'M' then 'm' else if c = 'N' then 'n' else if c = 'O' then 'o'
  else if c = 'P' then 'p' else if c = 'Q' then 'q' else if c = 'R' then 'r'
  else if c = 'S' then 's' else if c = 'T' then 't' else if c = 'U' then 'u'
  else if c = 'V' then 'v' else if c = 'W' then 'w' else if c = 'X' then 'x'
  else if c = 'Y' then 'y' else if c = 'Z' then 'z' else c

def lowerStr (s : Str) : Str := s.map lowerChar

/-- `str.strip()`: drop leading and trailing whitespace. -/
def pyStrip (s : Str) : Str :=
  (((s.dropWhile pyWs).reverse).dropWhile pyWs).reverse

/-- Match a literal `l` at the head of `s` (case-insensitively when
`ci = true`), returning the remainder of `s` on success. -/
def litMatch (ci : Bool) : Str → Str → Option Str
  | [], s => some s
  | _ :: _, [] => none
  | p :: ps, c :: cs =>
    if (if ci then lowerChar p = lowerChar c else p = c) then litMatch ci ps cs
    else none

def startsWithStr (p s : Str) : Bool := (litMatch false p s).isSome

/-- Pattern tokens covering the regex constructs used by the source. -/
inductive Tok where
  | lit (ci : Bool) (s : Str)
  | wsStar
  | lazyGroup
  | greedyGroup
  | dollar
  | lookNlOrEnd (t : Str)
deriving DecidableEq

/-- First `some` produced by `f` over a list of candidate positions. -/
def firstSome (f : Nat → Option α) : List Nat → Option α
  | [] => none
  | n :: ns =>
    match f n with
    | some x => some x
    | none => firstSome f ns

/-- Anchored match of a token sequence against `s`, returning the list of
captured groups.  Candidate orders reproduce Python's backtracking:
`\s*` greedy (largest first), `(.+?)` lazy (smallest first, at least one
character), `(.+)` greedy (largest first); a later token exhausts its
candidates before an earlier one moves on. -/
def matchToks : List Tok → Str → Option (List Str)
  | [], _ => some []
  | .lit ci l :: rest, s => (litMatch ci l s).bind (matchToks rest)
  | .wsStar :: rest, s =>
    firstSome (fun k => matchToks rest (s.drop k))
      (List.range ((s.takeWhile pyWs).length + 1)).reverse
  | .lazyGroup :: rest, s =>
    firstSome (fun m => (matchToks rest (s.drop m)).map (s.take m :: ·))
      ((List.range s.length).map (· + 1))
  | .greedyGroup :: rest, s =>
    firstSome (fun m => (matchToks rest (s.drop m)).map (s.take m :: ·))
      ((List.range s.length).map (· + 1)).reverse
  | .dollar :: rest, s =>
    if s = [] ∨ s = ['\n'] then matchToks rest s else none
  | .lookNlOrEnd t :: rest, s =>
    if (litMatch false t s).isSome ∨ s = [] then matchToks rest s else none

/-- `re.search`: try an anchored match at each position, left to right. -/
def searchToks (p : List Tok) : Str → Option (List Str)
  | [] => matchToks p []
  | c :: t =>
    match matchToks p (c :: t) with
    | some gs => some gs
    | none => searchToks p t

/-- `r"Thought:\s*(.+?)(?=\nAction:|\Z)"` (DOTALL). -/
def thoughtPat : List Tok :=
  [.lit false "Thought:".data, .wsStar, .lazyGroup, .lookNlOrEnd "\nAction:".data]

/-- `r"Action:\s*(.+?)(?=\nAction Input:|\Z)"` (DOTALL). -/
def actionPat : List Tok :=
  [.lit false "Action:".data, .wsStar, .lazyGroup, .lookNlOrEnd "\nAction Input:".data]

/-- `r"Action Input:\s*(.+)"` (DOTALL). -/
def inputPat : List Tok :=
  [.lit false "Action Input:".data, .wsStar, .greedyGroup]

/-- `r"finish\(\s*(.+?)\s*\)$"` (DOTALL | IGNORECASE). -/
def finishPat : List Tok :=
  [.lit true "finish(".data, .wsStar, .lazyGroup, .wsStar, .lit false ")".data, .dollar]

/-- `r"call_specialist\(\s*(.+?)\s*,\s*(.+?)\s*\)$"` (DOTALL). -/
def csPat : List Tok :=
  [.lit false "call_specialist(".data, .wsStar, .lazyGroup, .wsStar,
   .lit false ",".data, .wsStar, .lazyGroup, .wsStar, .lit false ")".data, .dollar]

/-- `r"search_nutrition\(\s*(.+?)\s*\)$"` (DOTALL). -/
def snPat : List Tok :=
  [.lit false "search_nutrition(".data, .wsStar, .lazyGroup, .wsStar,
   .lit false ")".data, .dollar]

/-- `r"search_research\(\s*(.+?)\s*\)$"` (DOTALL). -/
def srPat : List Tok :=
  [.lit false "search_research(".data, .wsStar, .lazyGroup, .wsStar,
   .lit false ")".data, .dollar]

structure ReactParsed where
  thought : Str
  action : Str
  actionInput : Str
deriving DecidableEq

/-- First capture of a search, stripped; empty on no match (the source
leaves the field at `""` when `re.search` returns `None`). -/
def searchGroup (p : List Tok) (text : Str) : Str :=
  match searchToks p text with
  | some (g :: _) => pyStrip g
  | _ => []

/-- `_parse_react_output`. -/
def parseReactOutput (text : Str) : ReactParsed :=
  { thought := searchGroup thoughtPat text
    action := searchGroup actionPat text
    actionInput := searchGroup inputPat text }

/-- `_SPECIALIST_ALIASES`. -/
def SPECIALIST_ALIASES : List (Str × Str) :=
  [("nutrition expert".data, "Nutrition Expert".data),
   ("nutritionexpert".data, "Nutrition Expert".data),
   ("nutrition".data, "Nutrition Expert".data),
   ("science researcher".data, "Science Researcher".data),
   ("scienceresearcher".data, "Science Researcher".data),
   ("science".data, "Science Researcher".data),
   ("researcher".data, "Science Researcher".data),
   ("wellness coach".data, "Wellness Coach".data),
   ("wellnesscoach".data, "Wellness Coach".data),
   ("wellness".data, "Wellness Coach".data),
   ("coach".data, "Wellness Coach".data)]

/-- `_normalize_specialist`. -/
def normalizeSpecialist (name : Str) : Str :=
  let key := lowerStr (pyStrip name)
  match SPECIALIST_ALIASES.lookup key with
  | some canon => canon
  | none => pyStrip name

structure Message where
  role : Str
  content : Str
deriving DecidableEq

inductive PromptRec where
  | messages (ms : List Message)
  | task (t : Str)
deriving DecidableEq

inductive RespRec where
  | raw (r : Str)
  | error (e : Str)
deriving DecidableEq

/-- One audit-trail entry (`steps` list element). -/
structure StepRecord where
  module : Str
  prompt : PromptRec
  response : RespRec
deriving DecidableEq

/-- The external collaborators: specialist execution backend and the two
retrieval lookups.  A raising specialist call is an `Except.error`. -/
structure Env where
  runSpecialist : Str → Str → Str → Except Str (Str × StepRecord)
  getNutritionContext : Str → Str
  getResearchContext : Str → Str

/-- Groups of `re.match(csPat, action)` as a name/task pair. -/
def csGroups (action : Str) : Option (Str × Str) :=
  match matchToks csPat action with
  | some (g1 :: g2 :: _) => some (g1, g2)
  | _ => none

/-- Python `s.split(",", 1)`: text before the first comma, and the text
after it when a comma exists. -/
def splitFirstComma : Str → Str × Option Str
  | [] => ([], none)
  | c :: t =>
    if c = ',' then ([], some t)
    else
      let r := splitFirstComma t
      (c :: r.1, r.2)

/-- The specialist-call classification at the top of `_execute_action`:
either the full `call_specialist(name, task)` pattern, or the
`call_specialist` prefix fallback that splits `action_input` on the
first comma. -/
def classifySpecialist (action actionInput : Str) : Option (Str × Str) :=
  match csGroups action with
  | some (g1, g2) => some (normalizeSpecialist g1, pyStrip g2)
  | none =>
    if startsWithStr "call_specialist".data (lowerStr action) then
      match splitFirstComma actionInput with
      | (p0, some p1) => some (normalizeSpecialist p0, pyStrip p1)
      | (p0, none) => some (normalizeSpecialist p0, actionInput)
    else none

/-- RAG context injected for the relevant specialists. -/
def specialistContext (env : Env) (name task : Str) : Str :=
  if name = "Nutrition Expert".data then env.getNutritionContext task
  else if name = "Science Researcher".data then env.getResearchContext task
  else []

/-- The search / finish / unknown branches of `_execute_action`, reached
when no (non-empty) specialist call was classified. -/
def restBranches (env : Env) (action actionInput : Str) (steps : List StepRecord) :
    Str × List StepRecord :=
  match matchToks snPat action with
  | some (q :: _) =>
    (if env.getNutritionContext q = [] then "No nutrition data found.".data
     else env.getNutritionContext q, steps)
  | _ =>
    match matchToks srPat action with
    | some (q :: _) =>
      (if env.getResearchContext q = [] then "No research data found.".data
       else env.getResearchContext q, steps)
    | _ =>
      if startsWithStr "finish".data (lowerStr action) then (actionInput, steps)
      else ("Unknown action: ".data ++ action, steps)

/-- `_execute_action`: returns the observation and the extended trail. -/
def executeAction (env : Env) (action actionInput : Str) (steps : List StepRecord) :
    Str × List StepRecord :=
  match classifySpecialist action actionInput with
  | some (name, task) =>
    if name ≠ [] ∧ task ≠ [] then
      match env.runSpecialist name task (specialistContext env name task) with
      | .ok (respText, rec) => (respText, steps ++ [rec])
      | .error e =>
        ("Error calling ".data ++ name ++ ": ".data ++ e,
         steps ++ [{ module := name, prompt := .task task, response := .error e }])
    else restBranches env action actionInput steps
  | none => restBranches env action actionInput steps

def MAX_ITERATIONS : Nat := 5

def MODULE_NAME : Str := "Orchestrator Agent".data

def REACT_SYSTEM_PROMPT : Str :=
  ("You are the Head Coach of Vita, an AI wellness and nutrition coach.\n\nYou solve the user's request by reasoning step-by-step. Each turn you MUST output exactly one block in this format:\n\nThought: <your reasoning about what to do next>\nAction: <one of the available actions>\nAction Input: <input for the action>\n\nAvailable actions:\n- call_specialist(Nutrition Expert, <task>) — diet, food, nutrients, meals, ingredients\n- call_specialist(Science Researcher, <task>) — evidence, research, clinical trials, medical facts\n- call_specialist(Wellness Coach, <task>) — stress, exercise, sleep, mindfulness, habits\n- search_nutrition(<query>) — direct RAG lookup for nutrition data\n- search_research(<query>) — direct RAG lookup for research/pubmed data\n- finish(<response>) — return the final answer to the user\n\nRules:\n- Always start with a Thought.\n- Call specialists or search tools to gather info before finishing.\n- You may call multiple specialists across turns if needed.\n- When you have enough information, use finish() with your complete, friendly final response.\n- Do NOT output anything after \"Action Input:\".\n").data

def SYNTH_SYSTEM_PROMPT : Str :=
  ("You are the Head Coach of Vita, an AI wellness and nutrition coach. Synthesize everything gathered so far into one concise, friendly response.").data

/-- Capture of the loop's finish check
`re.match(r"finish\(\s*(.+?)\s*\)$", action, DOTALL | IGNORECASE)`. -/
def finishGroup (action : Str) : Option Str :=
  match matchToks finishPat action with
  | some (g :: _) => some g
  | _ => none

/-- Messages built at the top of each loop iteration. -/
def loopMessages (prompt scratchpad : Str) : List Message :=
  [⟨"system".data, REACT_SYSTEM_PROMPT⟩,
   ⟨"user".data, pyStrip ("User request: ".data ++ prompt ++ "\n\n".data ++ scratchpad)⟩]

/-- The orchestrator StepRecord appended for the loop's generation call
number `k`. -/
def orchStep (llm : Nat → Str × Str) (prompt scratchpad : Str) (k : Nat) : StepRecord :=
  ⟨MODULE_NAME, .messages (loopMessages prompt scratchpad), .raw (llm k).2⟩

/-- `_force_finish`: one additional generation call synthesising the final
answer from the scratchpad. -/
def forceFinish (llm : Nat → Str × Str) (k : Nat) (prompt scratchpad : Str)
    (steps : List StepRecord) : Str × List StepRecord × Nat :=
  let msgs : List Message :=
    [⟨"system".data, SYNTH_SYSTEM_PROMPT⟩,
     ⟨"user".data,
      "User request: ".data ++ prompt ++ "\n\nResearch so far:\n".data ++ scratchpad ++
        "\n\nPlease provide your final answer now.".data⟩]
  ((llm k).1, steps ++ [⟨MODULE_NAME, .messages msgs, .raw (llm k).2⟩], k + 1)

/-- The main loop of `run`.  `rem` is the number of iterations left of
`MAX_ITERATIONS`; `k` counts generation-backend invocations so far, so
`llm k` is the scripted backend's next reply `(text, raw_response)`; the
returned `Nat` is the total number of generation-backend invocations. -/
def runLoop (env : Env) (llm : Nat → Str × Str) (prompt : Str) :
    Nat → Nat → Str → List StepRecord → Str × List StepRecord × Nat
  | 0, k, scratchpad, steps => forceFinish llm k prompt scratchpad steps
  | rem + 1, k, scratchpad, steps =>
    let steps1 := steps ++ [orchStep llm prompt scratchpad k]
    let p := parseReactOutput (llm k).1
    match finishGroup p.action with
    | some resp => (resp, steps1, k + 1)
    | none =>
      if lowerStr p.action = "finish".data then (p.actionInput, steps1, k + 1)
      else
        let r := executeAction env p.action p.actionInput steps1
        runLoop env llm prompt rem (k + 1)
          (scratchpad ++ "\nThought: ".data ++ p.thought ++ "\nAction: ".data ++
            p.action ++ "\nAction Input: ".data ++ p.actionInput ++
            "\nObservation: ".data ++ r.1 ++ "\n".data)
          r.2

/-- `run(prompt)`, instrumented with the generation-call count. -/
def run (env : Env) (llm : Nat → Str × Str) (prompt : Str) :
    Str × List StepRecord × Nat :=
  runLoop env llm prompt MAX_ITERATIONS 0 [] []

/-!  Direct characterizations of the three parser fields, used to settle
the parser claims.  `afterFirst`/`afterLast` locate a marker the way
`re.search` scans (left to right) and the way the spec's words "last
marker" would (right to left). -/

/-- Text after the first occurrence of `m` in `s`, if any. -/
def afterFirst (m : Str) : Str → Option Str
  | [] => litMatch false m []
  | c :: t =>
    match litMatch false m (c :: t) with
    | some r => some r
    | none => afterFirst m t

/-- Text after the last occurrence of `m` in `s`, if any. -/
def afterLast (m : Str) : Str → Option Str
  | [] => litMatch false m []
  | c :: t =>
    match afterLast m t with
    | some r => some r
    | none => litMatch false m (c :: t)

/-- Prefix of `s` before the first occurrence of `t` (all of `s` when `t`
does not occur). -/
def takeUntil (t : Str) : Str → Str
  | [] => []
  | c :: cs => if startsWithStr t (c :: cs) then [] else c :: takeUntil t cs

/-- What the regex field extraction computes, stated directly: after the
first occurrence of marker `m`, skip whitespace, cut at the first
occurrence of the newline-prefixed terminator `t`, and trim. -/
def directField (m t : Str) (text : Str) : Str :=
  match afterFirst m text with
  | none => []
  | some r => pyStrip (takeUntil t (r.dropWhile pyWs))

/-- The `actionInput` field, stated directly: trimmed text after the
FIRST `Action Input:` marker. -/
def directInput (text : Str) : Str :=
  match afterFirst "Action Input:".data text with
  | none => []
  | some r => pyStrip r

/-- Modelled from the claim's words: trimmed text after the LAST
`Action Input:` marker. -/
def lastMarkerInput (text : Str) : Str :=
  match afterLast "Action Input:".data text with
  | none => []
  | some r => pyStrip r

/-! ### Basic lemmas about the matcher building blocks -/

theorem litMatch_false_cons (p c : Char) (ps cs : Str) :
    litMatch false (p :: ps) (c :: cs) =
      if p = c then litMatch false ps cs else none := by
  simp [litMatch]

theorem litMatch_append (l r : Str) : litMatch false l (l ++ r) = some r := by
  induction l with
  | nil => rfl
  | cons c t ih => simp [litMatch_false_cons, ih]

theorem litMatch_some (l : Str) :
    ∀ s r : Str, litMatch false l s = some r → s = l ++ r := by
  induction l with
  | nil =>
    intro s r h
    simp only [litMatch, Option.some.injEq] at h
    simp [h]
  | cons c t ih =>
    intro s r h
    cases s with
    | nil => simp [litMatch] at h
    | cons d u =>
      rw [litMatch_false_cons] at h
      by_cases hcd : c = d
      · rw [if_pos hcd] at h
        subst hcd
        simpa using ih u r h
      · rw [if_neg hcd] at h
        exact absurd h (by simp)

theorem litMatch_none_of_short (l s : Str) (h : s.length < l.length) :
    litMatch false l s = none := by
  cases hm : litMatch false l s with
  | none => rfl
  | some r =>
    have h2 := litMatch_some l s r hm
    rw [h2, List.length_append] at h
    omega

theorem firstSome_cons_some {f : Nat → Option α} {n : Nat} {ns : List Nat} {x : α}
    (h : f n = some x) : firstSome f (n :: ns) = some x := by
  simp [firstSome, h]

theorem firstSome_cons_none {f : Nat → Option α} {n : Nat} {ns : List Nat}
    (h : f n = none) : firstSome f (n :: ns) = firstSome f ns := by
  simp [firstSome, h]

theorem firstSome_spec {f : Nat → Option α} (l1 : List Nat) (n : Nat) (l2 : List Nat)
    (h1 : ∀ x ∈ l1, f x = none) (h2 : (f n).isSome) :
    firstSome f (l1 ++ n :: l2) = f n := by
  induction l1 with
  | nil =>
    cases hv : f n with
    | none => rw [hv] at h2; simp at h2
    | some v => simp [firstSome, hv]
  | cons a t ih =>
    have ha : f a = none := h1 a (by simp)
    simp only [List.cons_append, firstSome, ha]
    exact ih (fun x hx => h1 x (by simp [hx]))

/-! ### takeUntil specification -/

theorem takeUntil_take (t : Str) :
    ∀ s : Str, takeUntil t s = s.take (takeUntil t s).length := by
  intro s
  induction s with
  | nil => rfl
  | cons c cs ih =>
    rw [takeUntil]
    by_cases h : startsWithStr t (c :: cs) = true
    · rw [if_pos h]
      rfl
    · rw [if_neg h]
      simp only [List.length_cons, List.take_succ_cons]
      rw [← ih]

theorem takeUntil_length_le (t : Str) :
    ∀ s : Str, (takeUntil t s).length ≤ s.length := by
  intro s
  induction s with
  | nil => simp [takeUntil]
  | cons c cs ih =>
    rw [takeUntil]
    by_cases h : startsWithStr t (c :: cs) = true
    · rw [if_pos h]
      simp
    · rw [if_neg h]
      simp only [List.length_cons]
      omega

theorem takeUntil_no_match_before (t : Str) :
    ∀ (s : Str) (j : Nat), j < (takeUntil t s).length →
      startsWithStr t (s.drop j) = false := by
  intro s
  induction s with
  | nil => intro j hj; simp [takeUntil] at hj
  | cons c cs ih =>
    intro j hj
    by_cases h : startsWithStr t (c :: cs) = true
    · simp [takeUntil, h] at hj
    · rw [takeUntil] at hj
      rw [if_neg h] at hj
      cases j with
      | zero => simpa using h
      | succ j' =>
        simp only [List.length_cons, Nat.succ_lt_succ_iff] at hj
        simpa using ih j' hj

theorem takeUntil_match_at (t : Str) :
    ∀ s : Str, (takeUntil t s).length < s.length →
      startsWithStr t (s.drop (takeUntil t s).length) = true := by
  intro s
  induction s with
  | nil => intro h; simp at h
  | cons c cs ih =>
    intro hlt
    by_cases h : startsWithStr t (c :: cs) = true
    · simp only [takeUntil, if_pos h, List.length_nil, List.drop_zero]
      exact h
    · rw [takeUntil, if_neg h] at hlt ⊢
      simp only [List.length_cons, Nat.succ_lt_succ_iff] at hlt
      simpa using ih hlt

theorem takeUntil_nil_start (t : Str) (s : Str) (hne : s ≠ [])
    (h : takeUntil t s = []) : startsWithStr t s = true := by
  cases s with
  | nil => exact absurd rfl hne
  | cons c cs =>
    by_cases hs : startsWithStr t (c :: cs) = true
    · exact hs
    · rw [takeUntil, if_neg hs] at h
      simp at h


/-! ### Candidate-list decompositions -/

theorem map_succ_range (n : Nat) : (List.range n).map (· + 1) = List.range' 1 n := by
  rw [List.range_eq_range']
  have h := List.map_add_range' 1 0 n 1
  rw [← h]
  apply List.map_congr_left
  intro a _
  omega

theorem mem_range_one (m s n : Nat) : m ∈ List.range' s n ↔ s ≤ m ∧ m < s + n := by
  rw [List.mem_range']
  constructor
  · rintro ⟨i, hi, rfl⟩
    omega
  · rintro ⟨h1, h2⟩
    exact ⟨m - s, by omega, by omega⟩

theorem range_one_decomp (i n : Nat) (h1 : 1 ≤ i) (h2 : i ≤ n) :
    List.range' 1 n = List.range' 1 (i - 1) ++ i :: List.range' (i + 1) (n - i) := by
  have ha := List.range'_append 1 (i - 1) (n - i + 1) 1
  have hb : 1 + 1 * (i - 1) = i := by omega
  have hc : n - i + 1 + (i - 1) = n := by omega
  rw [hb, hc] at ha
  rw [← ha, List.range'_succ]

theorem rev_range_succ (n : Nat) :
    (List.range (n + 1)).reverse = n :: (List.range n).reverse := by
  rw [List.range_succ]
  simp

/-! ### Characterizing the tail patterns `\s*(.+?)(?=t|\Z)` and `\s*(.+)` -/

def lookTail (t : Str) : List Tok := [.wsStar, .lazyGroup, .lookNlOrEnd t]

def greedyTail : List Tok := [.wsStar, .greedyGroup]

theorem dropWhile_self (p : Char → Bool) (l : Str) :
    (l.dropWhile p).dropWhile p = l.dropWhile p := by
  cases h : l.dropWhile p with
  | nil => rfl
  | cons d ds =>
    have hd : p d = false := by
      have h2 := List.head_dropWhile_not p l (w := by simp [h])
      simp only [h, List.head_cons] at h2
      exact h2
    simp [List.dropWhile_cons, hd]

theorem dropWhile_eq_drop (p : Char → Bool) (l : Str) :
    l.dropWhile p = l.drop (l.takeWhile p).length := by
  induction l with
  | nil => rfl
  | cons c t ih =>
    by_cases h : p c
    · simp [List.dropWhile_cons_of_pos h, List.takeWhile_cons_of_pos h, ih]
    · simp [List.dropWhile_cons_of_neg h, List.takeWhile_cons_of_neg h]

theorem matchToks_look (t : Str) (x : Str) :
    matchToks [.lookNlOrEnd t] x =
      if (litMatch false t x).isSome ∨ x = [] then some [] else none := by
  by_cases h : (litMatch false t x).isSome ∨ x = []
  · rw [matchToks, if_pos h, if_pos h]
    rfl
  · rw [matchToks, if_neg h, if_neg h]

/-- The lazy group of `(.+?)(?=t|\Z)` captures exactly up to the first
occurrence of `t` (or all of `s'`), provided `t` does not match at the
very start. -/
theorem matchToks_lazyLook (t : Str) (s' : Str) (hne : s' ≠ [])
    (h0 : startsWithStr t s' = false) :
    matchToks [.lazyGroup, .lookNlOrEnd t] s' = some [takeUntil t s'] := by
  have hil : (takeUntil t s').length ≤ s'.length := takeUntil_length_le t s'
  have hipos : 1 ≤ (takeUntil t s').length := by
    by_contra hc
    have h1 : takeUntil t s' = [] := List.eq_nil_of_length_eq_zero (by omega)
    have h2 := takeUntil_nil_start t s' hne h1
    rw [h0] at h2
    exact absurd h2 (by simp)
  have hcond : ((litMatch false t (s'.drop (takeUntil t s').length)).isSome = true) ∨
      s'.drop (takeUntil t s').length = [] := by
    by_cases hlt : (takeUntil t s').length < s'.length
    · exact Or.inl (takeUntil_match_at t s' hlt)
    · right
      rw [List.drop_eq_nil_iff]
      omega
  have hFi : (matchToks [.lookNlOrEnd t] (s'.drop (takeUntil t s').length)).map
      (s'.take (takeUntil t s').length :: ·) = some [takeUntil t s'] := by
    rw [matchToks_look, if_pos hcond]
    simp only [Option.map_some']
    rw [← takeUntil_take]
  have hunf : matchToks [.lazyGroup, .lookNlOrEnd t] s' =
      firstSome (fun m => (matchToks [.lookNlOrEnd t] (s'.drop m)).map (s'.take m :: ·))
        ((List.range s'.length).map (· + 1)) := rfl
  rw [hunf, map_succ_range, range_one_decomp ((takeUntil t s').length) s'.length hipos hil]
  refine (firstSome_spec _ _ _ ?_ ?_).trans hFi
  · intro x hx
    rw [mem_range_one] at hx
    have hxi : x < (takeUntil t s').length := by omega
    have hns : startsWithStr t (s'.drop x) = false := takeUntil_no_match_before t s' x hxi
    have hdropne : s'.drop x ≠ [] := by
      rw [ne_eq, List.drop_eq_nil_iff]
      omega
    rw [matchToks_look, if_neg]
    · rfl
    · push_neg
      refine ⟨?_, hdropne⟩
      rw [startsWithStr] at hns
      simp [hns]
  · rw [hFi]
    rfl

theorem matchToks_lazyLook_nil (t : Str) :
    matchToks [.lazyGroup, .lookNlOrEnd t] [] = none := rfl

theorem matchToks_lazyLook_single (t : Str) (b : Char) :
    matchToks [.lazyGroup, .lookNlOrEnd t] [b] = some [[b]] := by
  have h1 : matchToks [.lookNlOrEnd t] [] = some [] := by
    rw [matchToks_look, if_pos (Or.inr rfl)]
  have hunf : matchToks [.lazyGroup, .lookNlOrEnd t] [b] =
      firstSome (fun m => (matchToks [.lookNlOrEnd t] ([b].drop m)).map ([b].take m :: ·))
        [1] := rfl
  rw [hunf]
  exact firstSome_cons_some (by simp [h1])

theorem matchToks_lookTail_nil (t : Str) : matchToks (lookTail t) [] = none := rfl

theorem pyStrip_single_ws (b : Char) (hb : pyWs b = true) : pyStrip [b] = [] := by
  simp [pyStrip, List.dropWhile_cons, hb]

theorem pyStrip_cons_not_ws (d : Char) (ds : Str) (hd : pyWs d = false) :
    pyStrip (d :: ds) = ((d :: ds).reverse.dropWhile pyWs).reverse := by
  rw [pyStrip, List.dropWhile_cons_of_neg (by simp [hd])]

/-- `\s*(.+?)(?=('\n'::t')|\Z)` on a non-empty input: one group, equal
after trimming to the trimmed cut at the terminator. -/
theorem matchToks_lookTail_spec (t' : Str) (r : Str) (hne : r ≠ []) :
    ∃ g, matchToks (lookTail ('\n' :: t')) r = some [g] ∧
      pyStrip g = pyStrip (takeUntil ('\n' :: t') (r.dropWhile pyWs)) := by
  have hunf : matchToks (lookTail ('\n' :: t')) r =
      firstSome (fun k => matchToks [.lazyGroup, .lookNlOrEnd ('\n' :: t')] (r.drop k))
        (List.range ((r.takeWhile pyWs).length + 1)).reverse := rfl
  cases hsd : r.dropWhile pyWs with
  | cons d ds =>
    have hW : r.drop (r.takeWhile pyWs).length = d :: ds := by
      rw [← dropWhile_eq_drop, hsd]
    have hdns : pyWs d = false := by
      have h2 := List.head_dropWhile_not pyWs r (w := by simp [hsd])
      simp only [hsd, List.head_cons] at h2
      exact h2
    have h0 : startsWithStr ('\n' :: t') (d :: ds) = false := by
      by_contra hc
      rw [Bool.not_eq_false, startsWithStr, Option.isSome_iff_exists] at hc
      obtain ⟨r2, hr2⟩ := hc
      have hsh := litMatch_some ('\n' :: t') (d :: ds) r2 hr2
      have hd : d = '\n' := by
        have := congrArg (List.head?) hsh
        simpa using this
      rw [hd] at hdns
      exact absurd hdns (by decide)
    refine ⟨takeUntil ('\n' :: t') (d :: ds), ?_, rfl⟩
    rw [hunf, rev_range_succ]
    refine firstSome_cons_some ?_
    rw [hW]
    exact matchToks_lazyLook ('\n' :: t') (d :: ds) (by simp) h0
  | nil =>
    have htw : r.takeWhile pyWs = r := by
      have h3 := List.takeWhile_append_dropWhile (p := pyWs) (l := r)
      rw [hsd, List.append_nil] at h3
      exact h3
    have hall : ∀ x ∈ r, pyWs x = true := List.dropWhile_eq_nil_iff.mp hsd
    obtain ⟨ys, b, hyb⟩ := r.eq_nil_or_concat'.resolve_left hne
    have hlen : (r.takeWhile pyWs).length = ys.length + 1 := by
      rw [htw, hyb]
      simp
    have hb : pyWs b = true := hall b (by rw [hyb]; simp)
    refine ⟨[b], ?_, ?_⟩
    · rw [hunf, hlen, rev_range_succ, rev_range_succ]
      have hfail : matchToks [.lazyGroup, .lookNlOrEnd ('\n' :: t')]
          (r.drop (ys.length + 1)) = none := by
        have hd1 : r.drop (ys.length + 1) = [] := by
          rw [List.drop_eq_nil_iff, hyb]
          simp
        rw [hd1, matchToks_lazyLook_nil]
      rw [firstSome_cons_none (by simp [hfail])]
      refine firstSome_cons_some ?_
      have hd2 : r.drop ys.length = [b] := by
        rw [hyb, List.drop_left]
      rw [hd2]
      simp [matchToks_lazyLook_single]
    · rw [pyStrip_single_ws b hb]
      rfl

theorem matchToks_greedy_nonempty (s' : Str) (hne : s' ≠ []) :
    matchToks [.greedyGroup] s' = some [s'] := by
  cases s' with
  | nil => exact absurd rfl hne
  | cons d ds =>
    have hunf : matchToks [.greedyGroup] (d :: ds) =
        firstSome (fun m => (matchToks ([] : List Tok) ((d :: ds).drop m)).map
          ((d :: ds).take m :: ·))
          ((List.range (ds.length + 1)).map (· + 1)).reverse := rfl
    rw [hunf, List.range_succ]
    simp only [List.map_append, List.reverse_append]
    refine firstSome_cons_some ?_
    simp [matchToks, List.take_of_length_le]

theorem matchToks_greedyTail_nil : matchToks greedyTail [] = none := rfl

/-- `\s*(.+)` on a non-empty input: one group, equal after trimming to
the trimmed input. -/
theorem matchToks_greedyTail_spec (r : Str) (hne : r ≠ []) :
    ∃ g, matchToks greedyTail r = some [g] ∧ pyStrip g = pyStrip r := by
  have hunf : matchToks greedyTail r =
      firstSome (fun k => matchToks [.greedyGroup] (r.drop k))
        (List.range ((r.takeWhile pyWs).length + 1)).reverse := rfl
  cases hsd : r.dropWhile pyWs with
  | cons d ds =>
    have hW : r.drop (r.takeWhile pyWs).length = d :: ds := by
      rw [← dropWhile_eq_drop, hsd]
    have hdns : pyWs d = false := by
      have h2 := List.head_dropWhile_not pyWs r (w := by simp [hsd])
      simp only [hsd, List.head_cons] at h2
      exact h2
    refine ⟨d :: ds, ?_, ?_⟩
    · rw [hunf, rev_range_succ]
      refine firstSome_cons_some ?_
      rw [hW]
      exact matchToks_greedy_nonempty (d :: ds) (by simp)
    · rw [pyStrip_cons_not_ws d ds hdns, pyStrip, hsd]
  | nil =>
    have htw : r.takeWhile pyWs = r := by
      have h3 := List.takeWhile_append_dropWhile (p := pyWs) (l := r)
      rw [hsd, List.append_nil] at h3
      exact h3
    have hall : ∀ x ∈ r, pyWs x = true := List.dropWhile_eq_nil_iff.mp hsd
    obtain ⟨ys, b, hyb⟩ := r.eq_nil_or_concat'.resolve_left hne
    have hlen : (r.takeWhile pyWs).length = ys.length + 1 := by
      rw [htw, hyb]
      simp
    have hb : pyWs b = true := hall b (by rw [hyb]; simp)
    refine ⟨[b], ?_, ?_⟩
    · rw [hunf, hlen, rev_range_succ, rev_range_succ]
      have hfail : matchToks [.greedyGroup] (r.drop (ys.length + 1)) = none := by
        have hd1 : r.drop (ys.length + 1) = [] := by
          rw [List.drop_eq_nil_iff, hyb]
          simp
        rw [hd1]
        rfl
      rw [firstSome_cons_none (by simp [hfail])]
      refine firstSome_cons_some ?_
      have hd2 : r.drop ys.length = [b] := by
        rw [hyb, List.drop_left]
      rw [hd2]
      simp [matchToks_greedy_nonempty [b] (by simp)]
    · rw [pyStrip_single_ws b hb, pyStrip, hsd]
      rfl

/-! ### `re.search` of a literal-headed pattern finds the first marker -/

theorem searchToks_short (m : Str) (P : List Tok) :
    ∀ s : Str, s.length < m.length → searchToks (.lit false m :: P) s = none := by
  intro s
  induction s with
  | nil =>
    intro h
    have h0 : litMatch false m [] = none := litMatch_none_of_short m [] h
    simp [searchToks, matchToks, h0]
  | cons c cs ih =>
    intro h
    have h0 : litMatch false m (c :: cs) = none := litMatch_none_of_short m (c :: cs) h
    have hmt : matchToks (.lit false m :: P) (c :: cs) = none := by
      rw [matchToks, h0]
      rfl
    simp only [searchToks, hmt]
    exact ih (by simp at h ⊢; omega)

theorem searchToks_lit_spec (m : Str) (P : List Tok) (hm : m ≠ [])
    (hP0 : matchToks P [] = none)
    (htot : ∀ r : Str, r ≠ [] → (matchToks P r).isSome = true) :
    ∀ text : Str, searchToks (.lit false m :: P) text =
      match afterFirst m text with
      | none => none
      | some r => if r = [] then none else matchToks P r := by
  intro text
  induction text with
  | nil =>
    have h0 : litMatch false m [] = none := by
      cases m with
      | nil => exact absurd rfl hm
      | cons a as => rfl
    simp [searchToks, matchToks, afterFirst, h0]
  | cons c t ih =>
    cases hlm : litMatch false m (c :: t) with
    | some r =>
      have hshape := litMatch_some m (c :: t) r hlm
      by_cases hr : r = []
      · subst hr
        have hlen : t.length < m.length := by
          have hl := congrArg List.length hshape
          simp at hl
          omega
        have hmt : matchToks (.lit false m :: P) (c :: t) = none := by
          rw [matchToks, hlm]
          simpa using hP0
        simp only [searchToks, hmt, afterFirst, hlm]
        exact searchToks_short m P t hlen
      · have hv := htot r hr
        obtain ⟨v, hveq⟩ := Option.isSome_iff_exists.mp hv
        have hmt : matchToks (.lit false m :: P) (c :: t) = some v := by
          rw [matchToks, hlm]
          simpa using hveq
        simp only [searchToks, hmt, afterFirst, hlm]
        rw [if_neg hr, hveq]
    | none =>
      have hmt : matchToks (.lit false m :: P) (c :: t) = none := by
        rw [matchToks, hlm]
        rfl
      simp only [searchToks, hmt, afterFirst, hlm]
      exact ih

theorem searchGroup_lookPat (m t' : Str) (hm : m ≠ []) (text : Str) :
    searchGroup (.lit false m :: lookTail ('\n' :: t')) text =
      directField m ('\n' :: t') text := by
  have htot : ∀ r : Str, r ≠ [] → (matchToks (lookTail ('\n' :: t')) r).isSome = true := by
    intro r hr
    obtain ⟨g, hg, _⟩ := matchToks_lookTail_spec t' r hr
    rw [hg]
    rfl
  unfold searchGroup directField
  rw [searchToks_lit_spec m (lookTail ('\n' :: t')) hm (matchToks_lookTail_nil _) htot text]
  cases haf : afterFirst m text with
  | none => rfl
  | some r =>
    by_cases hr : r = []
    · subst hr
      simp [takeUntil, pyStrip]
    · obtain ⟨g, hg, hstrip⟩ := matchToks_lookTail_spec t' r hr
      simp only []
      rw [if_neg hr, hg]
      exact hstrip

theorem searchGroup_greedyPat (m : Str) (hm : m ≠ []) (text : Str) :
    searchGroup (.lit false m :: greedyTail) text =
      (match afterFirst m text with
       | none => []
       | some r => pyStrip r) := by
  have htot : ∀ r : Str, r ≠ [] → (matchToks greedyTail r).isSome = true := by
    intro r hr
    obtain ⟨g, hg, _⟩ := matchToks_greedyTail_spec r hr
    rw [hg]
    rfl
  unfold searchGroup
  rw [searchToks_lit_spec m greedyTail hm matchToks_greedyTail_nil htot text]
  cases haf : afterFirst m text with
  | none => rfl
  | some r =>
    by_cases hr : r = []
    · subst hr
      simp [pyStrip]
    · obtain ⟨g, hg, hstrip⟩ := matchToks_greedyTail_spec r hr
      simp only []
      rw [if_neg hr, hg]
      exact hstrip

/-- The parser, characterized directly: each field comes from the first
occurrence of its marker; `thought`/`action` stop at the first
newline-prefixed terminator after skipping leading whitespace;
`actionInput` runs to the end of the text. -/
theorem parse_eq_direct (text : Str) :
    parseReactOutput text =
      ⟨directField "Thought:".data "\nAction:".data text,
       directField "Action:".data "\nAction Input:".data text,
       directInput text⟩ := by
  have e1 : searchGroup thoughtPat text =
      directField "Thought:".data "\nAction:".data text :=
    searchGroup_lookPat "Thought:".data "Action:".data (by decide) text
  have e2 : searchGroup actionPat text =
      directField "Action:".data "\nAction Input:".data text :=
    searchGroup_lookPat "Action:".data "Action Input:".data (by decide) text
  have e3 : searchGroup inputPat text = directInput text :=
    searchGroup_greedyPat "Action Input:".data (by decide) text
  simp only [parseReactOutput]
  rw [e1, e2, e3]

/-! ### Normalizer lemmas -/

theorem pyWs_lowerChar (c : Char) : pyWs (lowerChar c) = pyWs c := by
  by_cases h1 : c = 'A'
  · subst h1; rfl
  by_cases h2 : c = 'B'
  · subst h2; rfl
  by_cases h3 : c = 'C'
  · subst h3; rfl
  by_cases h4 : c = 'D'
  · subst h4; rfl
  by_cases h5 : c = 'E'
  · subst h5; rfl
  by_cases h6 : c = 'F'
  · subst h6; rfl
  by_cases h7 : c = 'G'
  · subst h7; rfl
  by_cases h8 : c = 'H'
  · subst h8; rfl
  by_cases h9 : c = 'I'
  · subst h9; rfl
  by_cases h10 : c = 'J'
  · subst h10; rfl
  by_cases h11 : c = 'K'
  · subst h11; rfl
  by_cases h12 : c = 'L'
  · subst h12; rfl
  by_cases h13 : c = 'M'
  · subst h13; rfl
  by_cases h14 : c = 'N'
  · subst h14; rfl
  by_cases h15 : c = 'O'
  · subst h15; rfl
  by_cases h16 : c = 'P'
  · subst h16; rfl
  by_cases h17 : c = 'Q'
  · subst h17; rfl
  by_cases h18 : c = 'R'
  · subst h18; rfl
  by_cases h19 : c = 'S'
  · subst h19; rfl
  by_cases h20 : c = 'T'
  · subst h20; rfl
  by_cases h21 : c = 'U'
  · subst h21; rfl
  by_cases h22 : c = 'V'
  · subst h22; rfl
  by_cases h23 : c = 'W'
  · subst h23; rfl
  by_cases h24 : c = 'X'
  · subst h24; rfl
  by_cases h25 : c = 'Y'
  · subst h25; rfl
  by_cases h26 : c = 'Z'
  · subst h26; rfl
  rw [lowerChar, if_neg h1, if_neg h2, if_neg h3, if_neg h4, if_neg h5, if_neg h6, if_neg h7, if_neg h8, if_neg h9, if_neg h10, if_neg h11, if_neg h12, if_neg h13, if_neg h14, if_neg h15, if_neg h16, if_neg h17, if_neg h18, if_neg h19, if_neg h20, if_neg h21, if_neg h22, if_neg h23, if_neg h24, if_neg h25, if_neg h26]

theorem dropWhile_append_all (w l : Str) (hw : ∀ x ∈ w, pyWs x = true) :
    (w ++ l).dropWhile pyWs = l.dropWhile pyWs := by
  induction w with
  | nil => rfl
  | cons a t ih =>
    rw [List.cons_append, List.dropWhile_cons_of_pos (hw a (by simp))]
    exact ih (fun x hx => hw x (by simp [hx]))

/-- Stripping a string wrapped in whitespace, whose own ends are
non-whitespace, recovers the string. -/
theorem pyStrip_ws_wrap (w1 w2 c : Str)
    (hw1 : ∀ x ∈ w1, pyWs x = true) (hw2 : ∀ x ∈ w2, pyWs x = true)
    (hne : c ≠ [])
    (hh : ∀ d, c.head? = some d → pyWs d = false)
    (hl : ∀ b, c.getLast? = some b → pyWs b = false) :
    pyStrip (w1 ++ c ++ w2) = c := by
  obtain ⟨ys, b, hyb⟩ := c.eq_nil_or_concat'.resolve_left hne
  cases c with
  | nil => exact absurd rfl hne
  | cons d cs =>
    have hd : pyWs d = false := hh d rfl
    have hb : pyWs b = false := by
      refine hl b ?_
      rw [hyb]
      exact List.getLast?_concat ys
    have step1 : (w1 ++ (d :: cs) ++ w2).dropWhile pyWs = (d :: cs) ++ w2 := by
      rw [List.append_assoc, dropWhile_append_all w1 _ hw1,
        List.cons_append, List.dropWhile_cons_of_neg (by simp [hd])]
    have step2 : ((d :: cs) ++ w2).reverse.dropWhile pyWs = (d :: cs).reverse := by
      rw [List.reverse_append, dropWhile_append_all _ _ (by
        intro x hx
        exact hw2 x (by simpa using hx))]
      rw [hyb, List.reverse_append, List.reverse_singleton, List.singleton_append]
      rw [List.dropWhile_cons_of_neg (by simp [hb])]
    rw [pyStrip, step1, step2, List.reverse_reverse]

theorem lookup_mem (k v : Str) (l : List (Str × Str)) (h : l.lookup k = some v) :
    (k, v) ∈ l := by
  induction l with
  | nil => simp [List.lookup] at h
  | cons p t ih =>
    rw [List.lookup] at h
    cases hk : (k == p.1) with
    | true =>
      simp only [hk] at h
      have h1 : k = p.1 := by simpa using hk
      have h2 : v = p.2 := by simpa using h.symm
      rw [h1, h2]
      have hp : (p.1, p.2) = p := rfl
      rw [hp]
      exact List.mem_cons_self p t
    | false =>
      simp only [hk] at h
      exact List.mem_cons_of_mem p (ih h)

/-- Every alias key is non-empty with non-whitespace first and last
characters, and every canonical value is a fixed point of
`normalizeSpecialist`. -/
theorem alias_table_keys_clean :
    ∀ p ∈ SPECIALIST_ALIASES, p.1 ≠ [] ∧
      (∀ d, p.1.head? = some d → pyWs d = false) ∧
      (∀ b, p.1.getLast? = some b → pyWs b = false) := by
  decide

theorem alias_table_values_fixed :
    ∀ p ∈ SPECIALIST_ALIASES, normalizeSpecialist p.2 = p.2 := by
  decide

/-- An alias key wrapped in any whitespace and any letter case
normalizes to its canonical name. -/
theorem normalize_alias (w1 c w2 key canon : Str)
    (hw1 : ∀ x ∈ w1, pyWs x = true) (hw2 : ∀ x ∈ w2, pyWs x = true)
    (hkey : lowerStr c = key)
    (hlook : SPECIALIST_ALIASES.lookup key = some canon) :
    normalizeSpecialist (w1 ++ c ++ w2) = canon := by
  obtain ⟨hkne, hkh, hkl⟩ := alias_table_keys_clean (key, canon)
    (lookup_mem key canon SPECIALIST_ALIASES hlook)
  have hcne : c ≠ [] := by
    intro hc
    rw [hc] at hkey
    exact hkne hkey.symm
  have hch : ∀ d, c.head? = some d → pyWs d = false := by
    intro d hd
    have h1 : key.head? = some (lowerChar d) := by
      rw [← hkey, lowerStr, List.head?_map, hd]
      rfl
    have h2 := hkh (lowerChar d) h1
    rw [pyWs_lowerChar] at h2
    exact h2
  have hcl : ∀ b, c.getLast? = some b → pyWs b = false := by
    intro b hb
    have h1 : key.getLast? = some (lowerChar b) := by
      rw [← hkey, lowerStr, List.getLast?_map, hb]
      rfl
    have h2 := hkl (lowerChar b) h1
    rw [pyWs_lowerChar] at h2
    exact h2
  have hstrip : pyStrip (w1 ++ c ++ w2) = c :=
    pyStrip_ws_wrap w1 w2 c hw1 hw2 hcne hch hcl
  simp only [normalizeSpecialist]
  rw [hstrip, hkey, hlook]

theorem normalize_miss (s : Str)
    (h : SPECIALIST_ALIASES.lookup (lowerStr (pyStrip s)) = none) :
    normalizeSpecialist s = pyStrip s := by
  simp only [normalizeSpecialist]
  rw [h]

theorem head?_dropWhile_false (p : Char → Bool) (l : Str) :
    ∀ d, (l.dropWhile p).head? = some d → p d = false := by
  intro d hd
  cases hdw : l.dropWhile p with
  | nil =>
    rw [hdw] at hd
    simp at hd
  | cons e es =>
    rw [hdw] at hd
    simp only [List.head?_cons, Option.some.injEq] at hd
    subst hd
    have h2 := List.head_dropWhile_not p l (w := by simp [hdw])
    simp only [hdw, List.head_cons] at h2
    exact h2

theorem pyStrip_head (s : Str) :
    ∀ d, (pyStrip s).head? = some d → pyWs d = false := by
  intro d hd
  rw [pyStrip, List.head?_reverse] at hd
  cases hy : ((s.dropWhile pyWs).reverse).dropWhile pyWs with
  | nil =>
    rw [hy] at hd
    simp at hd
  | cons e es =>
    have hw : (s.dropWhile pyWs).reverse.takeWhile pyWs ++ (e :: es) =
        (s.dropWhile pyWs).reverse := by
      rw [← hy]
      exact List.takeWhile_append_dropWhile pyWs ((s.dropWhile pyWs).reverse)
    have hgl : ((s.dropWhile pyWs).reverse).getLast? = (e :: es).getLast? := by
      rw [← hw]
      exact List.getLast?_append_of_ne_nil _ (by simp)
    rw [hy, ← hgl, List.getLast?_reverse] at hd
    exact head?_dropWhile_false pyWs s d hd

theorem pyStrip_last (s : Str) :
    ∀ b, (pyStrip s).getLast? = some b → pyWs b = false := by
  intro b hb
  rw [pyStrip, List.getLast?_reverse] at hb
  exact head?_dropWhile_false pyWs _ b hb

theorem pyStrip_idem (s : Str) : pyStrip (pyStrip s) = pyStrip s := by
  cases hx : pyStrip s with
  | nil => rfl
  | cons e es =>
    have he : pyWs e = false := pyStrip_head s e (by rw [hx]; rfl)
    have h1 : (e :: es).dropWhile pyWs = e :: es :=
      List.dropWhile_cons_of_neg (by simp [he])
    obtain ⟨zs, b, hzb⟩ := (e :: es).eq_nil_or_concat'.resolve_left (by simp)
    have hb : pyWs b = false := by
      refine pyStrip_last s b ?_
      rw [hx, hzb]
      exact List.getLast?_concat zs
    rw [pyStrip, h1, hzb, List.reverse_append, List.reverse_singleton,
      List.singleton_append, List.dropWhile_cons_of_neg (by simp [hb])]
    simp

theorem normalizeSpecialist_idem (s : Str) :
    normalizeSpecialist (normalizeSpecialist s) = normalizeSpecialist s := by
  cases hcl : SPECIALIST_ALIASES.lookup (lowerStr (pyStrip s)) with
  | some canon =>
    have h1 : normalizeSpecialist s = canon := by
      simp only [normalizeSpecialist]
      rw [hcl]
    rw [h1]
    exact alias_table_values_fixed (lowerStr (pyStrip s), canon)
      (lookup_mem _ _ _ hcl)
  | none =>
    have h1 : normalizeSpecialist s = pyStrip s := normalize_miss s hcl
    have h2 : normalizeSpecialist (pyStrip s) = pyStrip (pyStrip s) :=
      normalize_miss _ (by rw [pyStrip_idem]; exact hcl)
    rw [h1, h2, pyStrip_idem]

/-! ### Dispatch lemmas -/

theorem matchToks_lit_decomp (l : Str) (P : List Tok) (s : Str) (gs : List Str)
    (h : matchToks (.lit false l :: P) s = some gs) : ∃ r, s = l ++ r := by
  rw [matchToks] at h
  cases hlm : litMatch false l s with
  | none =>
    rw [hlm] at h
    simp at h
  | some r => exact ⟨r, litMatch_some l s r hlm⟩

/-- Any action starting with `'s'` is not classified as a specialist
call: neither the `call_specialist(...)` pattern nor the
`call_specialist` prefix fallback applies. -/
theorem classifySpecialist_s (r : Str) (actionInput : Str) :
    classifySpecialist ('s' :: r) actionInput = none := by
  have hlm : litMatch false "call_specialist(".data ('s' :: r) = none := by
    rw [show "call_specialist(".data = 'c' :: "all_specialist(".data from rfl,
      litMatch_false_cons, if_neg (by decide)]
  have hsw : startsWithStr "call_specialist".data (lowerStr ('s' :: r)) = false := by
    rw [startsWithStr, lowerStr, List.map_cons,
      show lowerChar 's' = 's' from rfl,
      show "call_specialist".data = 'c' :: "all_specialist".data from rfl,
      litMatch_false_cons, if_neg (by decide)]
    rfl
  unfold classifySpecialist csGroups
  simp only [csPat, matchToks, hlm, Option.none_bind]
  rw [if_neg (by simp [hsw])]

theorem snPat_none_of_sr (r : Str) :
    matchToks snPat ("search_research(".data ++ r) = none := by
  have hlm : litMatch false "search_nutrition(".data ("search_research(".data ++ r) = none := by
    simp [show "search_nutrition(".data =
        ['s','e','a','r','c','h','_','n','u','t','r','i','t','i','o','n','('] from rfl,
      show "search_research(".data =
        ['s','e','a','r','c','h','_','r','e','s','e','a','r','c','h','('] from rfl,
      litMatch_false_cons]
  simp only [snPat, matchToks, hlm, Option.none_bind]

/-- The specialist branch of `_execute_action`: a classified, non-empty
name/task pair is dispatched to the specialist backend with the context
resolved by `specialistContext`. -/
theorem executeAction_specialist (env : Env) (action actionInput : Str)
    (steps : List StepRecord) (name task : Str)
    (hc : classifySpecialist action actionInput = some (name, task))
    (hn : name ≠ []) (ht : task ≠ []) :
    executeAction env action actionInput steps =
      match env.runSpecialist name task (specialistContext env name task) with
      | .ok (respText, rec) => (respText, steps ++ [rec])
      | .error e =>
        ("Error calling ".data ++ name ++ ": ".data ++ e,
         steps ++ [{ module := name, prompt := .task task, response := .error e }]) := by
  unfold executeAction
  rw [hc]
  simp only []
  rw [if_pos ⟨hn, ht⟩]

/-- The `search_nutrition` branch of `_execute_action`. -/
theorem executeAction_search_nutrition (env : Env) (action actionInput : Str)
    (steps : List StepRecord) (q : Str)
    (h : matchToks snPat action = some [q]) :
    executeAction env action actionInput steps =
      (if env.getNutritionContext q = [] then "No nutrition data found.".data
       else env.getNutritionContext q, steps) := by
  have h' : matchToks (.lit false "search_nutrition(".data ::
      [Tok.wsStar, Tok.lazyGroup, Tok.wsStar, Tok.lit false ")".data, Tok.dollar])
      action = some [q] := h
  obtain ⟨r, hr⟩ := matchToks_lit_decomp _ _ _ _ h'
  have hs : action = 's' :: ("earch_nutrition(".data ++ r) := by rw [hr]; rfl
  rw [hs] at h ⊢
  unfold executeAction
  rw [classifySpecialist_s]
  unfold restBranches
  rw [show ('s' :: ("earch_nutrition(".data ++ r)) =
    "search_nutrition(".data ++ r from rfl] at h ⊢
  rw [h]

/-- The `search_research` branch of `_execute_action`. -/
theorem executeAction_search_research (env : Env) (action actionInput : Str)
    (steps : List StepRecord) (q : Str)
    (h : matchToks srPat action = some [q]) :
    executeAction env action actionInput steps =
      (if env.getResearchContext q = [] then "No research data found.".data
       else env.getResearchContext q, steps) := by
  have h' : matchToks (.lit false "search_research(".data ::
      [Tok.wsStar, Tok.lazyGroup, Tok.wsStar, Tok.lit false ")".data, Tok.dollar])
      action = some [q] := h
  obtain ⟨r, hr⟩ := matchToks_lit_decomp _ _ _ _ h'
  have hs : action = 's' :: ("earch_research(".data ++ r) := by rw [hr]; rfl
  rw [hs] at h ⊢
  unfold executeAction
  rw [classifySpecialist_s]
  unfold restBranches
  rw [show ('s' :: ("earch_research(".data ++ r)) =
    "search_research(".data ++ r from rfl] at h ⊢
  rw [snPat_none_of_sr, h]

/-! ### Loop-controller lemmas -/

theorem runLoop_finish (env : Env) (llm : Nat → Str × Str) (prompt : Str)
    (rem k : Nat) (scratchpad : Str) (steps : List StepRecord) (g : Str)
    (h : finishGroup (parseReactOutput (llm k).1).action = some g) :
    runLoop env llm prompt (rem + 1) k scratchpad steps =
      (g, steps ++ [orchStep llm prompt scratchpad k], k + 1) := by
  simp only [runLoop, h]

theorem runLoop_bare_finish (env : Env) (llm : Nat → Str × Str) (prompt : Str)
    (rem k : Nat) (scratchpad : Str) (steps : List StepRecord)
    (hn : finishGroup (parseReactOutput (llm k).1).action = none)
    (hb : lowerStr (parseReactOutput (llm k).1).action = "finish".data) :
    runLoop env llm prompt (rem + 1) k scratchpad steps =
      ((parseReactOutput (llm k).1).actionInput,
       steps ++ [orchStep llm prompt scratchpad k], k + 1) := by
  simp only [runLoop, hn, hb, if_pos]

theorem runLoop_continue (env : Env) (llm : Nat → Str × Str) (prompt : Str)
    (rem k : Nat) (scratchpad : Str) (steps : List StepRecord)
    (hn : finishGroup (parseReactOutput (llm k).1).action = none)
    (hb : lowerStr (parseReactOutput (llm k).1).action ≠ "finish".data) :
    runLoop env llm prompt (rem + 1) k scratchpad steps =
      runLoop env llm prompt rem (k + 1)
        (scratchpad ++ "\nThought: ".data ++ (parseReactOutput (llm k).1).thought ++
          "\nAction: ".data ++ (parseReactOutput (llm k).1).action ++
          "\nAction Input: ".data ++ (parseReactOutput (llm k).1).actionInput ++
          "\nObservation: ".data ++
          (executeAction env (parseReactOutput (llm k).1).action
            (parseReactOutput (llm k).1).actionInput
            (steps ++ [orchStep llm prompt scratchpad k])).1 ++ "\n".data)
        (executeAction env (parseReactOutput (llm k).1).action
          (parseReactOutput (llm k).1).actionInput
          (steps ++ [orchStep llm prompt scratchpad k])).2 := by
  simp only [runLoop, hn, if_neg hb]

/-- With a backend that never produces a finish action, the loop runs all
its iterations and then forces synthesis: the answer is the text of the
generation call made after `rem` loop turns, and one generation call is
made per turn plus one for synthesis. -/
theorem runLoop_no_finish (env : Env) (llm : Nat → Str × Str) (prompt : Str)
    (h : ∀ n, finishGroup (parseReactOutput (llm n).1).action = none ∧
      lowerStr (parseReactOutput (llm n).1).action ≠ "finish".data) :
    ∀ (rem k : Nat) (scratchpad : Str) (steps : List StepRecord),
      (runLoop env llm prompt rem k scratchpad steps).1 = (llm (k + rem)).1 ∧
      (runLoop env llm prompt rem k scratchpad steps).2.2 = k + rem + 1 := by
  intro rem
  induction rem with
  | zero =>
    intro k sc st
    constructor
    · simp [runLoop, forceFinish]
    · simp [runLoop, forceFinish]
  | succ n ih =>
    intro k sc st
    rw [runLoop_continue env llm prompt n k sc st (h k).1 (h k).2]
    have harith : k + 1 + n = k + (n + 1) := by omega
    have hih := ih (k + 1)
      (sc ++ "\nThought: ".data ++ (parseReactOutput (llm k).1).thought ++
        "\nAction: ".data ++ (parseReactOutput (llm k).1).action ++
        "\nAction Input: ".data ++ (parseReactOutput (llm k).1).actionInput ++
        "\nObservation: ".data ++
        (executeAction env (parseReactOutput (llm k).1).action
          (parseReactOutput (llm k).1).actionInput
          (st ++ [orchStep llm prompt sc k])).1 ++ "\n".data)
      ((executeAction env (parseReactOutput (llm k).1).action
        (parseReactOutput (llm k).1).actionInput
        (st ++ [orchStep llm prompt sc k])).2)
    rw [harith] at hih
    exact hih

/-! ### Concrete backends used by witnesses -/

/-- A backend whose specialist call always raises and whose retrieval
lookups always come back empty. -/
def envW : Env :=
  ⟨fun _ _ _ => .error "boom".data, fun _ => [], fun _ => []⟩

/-- A backend whose specialist call always succeeds, echoing its inputs
into the returned StepRecord. -/
def envOk : Env :=
  ⟨fun name task ctx => .ok ("resp".data, ⟨name, .task task, .raw ctx⟩),
   fun _ => "NCTX".data, fun _ => "RCTX".data⟩

/-- Scripted generation backend that never emits a finish action. -/
def llmW1 : Nat → Str × Str := fun _ => ("Action: x".data, "r".data)

/-- Scripted generation backend whose first turn finishes. -/
def llmFinish1 : Nat → Str × Str :=
  fun _ => ("Thought: x\nAction: finish(Hello there!)\nAction Input:".data, "raw".data)

/-- Scripted generation backend that always answers `finish()`. -/
def llmFinishParen : Nat → Str × Str :=
  fun _ => ("Action: finish()\nAction Input: hi".data, "r".data)

/-! ### Claims -/

/-- C1: if the scripted generation backend never produces a finish action
in any turn, `run` makes exactly 6 generation calls (5 in the main loop
plus 1 forced synthesis, executed once and only after the 5-iteration
bound) and returns the forced-synthesis call's text. -/
theorem c1_run_six_calls_forced_synthesis (env : Env) (llm : Nat → Str × Str)
    (prompt : Str)
    (h : ∀ n, finishGroup (parseReactOutput (llm n).1).action = none ∧
      lowerStr (parseReactOutput (llm n).1).action ≠ "finish".data) :
    (run env llm prompt).2.2 = 6 ∧ (run env llm prompt).1 = (llm 5).1 := by
  have hmain := runLoop_no_finish env llm prompt h MAX_ITERATIONS 0 [] []
  unfold run
  constructor
  · simpa using hmain.2
  · simpa using hmain.1

theorem c1_witness :
    (run envW llmW1 "hi".data).2.2 = 6 ∧ (run envW llmW1 "hi".data).1 = (llmW1 5).1 := by
  apply c1_run_six_calls_forced_synthesis
  intro n
  constructor
  · show finishGroup (parseReactOutput ("Action: x".data, ("r".data : Str)).1).action = none
    decide
  · show lowerStr (parseReactOutput ("Action: x".data, ("r".data : Str)).1).action ≠
      "finish".data
    decide

/-- C2: in any iteration, a parsed action matching `finish(<response>)`
(case-insensitively) makes `run` return `<response>` immediately with the
trail as-is — only this turn's generation record is appended, no dispatch
and no scratchpad append happen; a bare `finish` action returns
`actionInput`.  In particular the scripted first-turn
`Thought: x\nAction: finish(Hello there!)\nAction Input:` backend makes
`run` return `"Hello there!"` with exactly one StepRecord in the trail. -/
theorem c2_finish_interception :
    (∀ (env : Env) (llm : Nat → Str × Str) (prompt : Str) (rem k : Nat)
      (scratchpad : Str) (steps : List StepRecord) (g : Str),
      finishGroup (parseReactOutput (llm k).1).action = some g →
      runLoop env llm prompt (rem + 1) k scratchpad steps =
        (g, steps ++ [orchStep llm prompt scratchpad k], k + 1)) ∧
    (∀ (env : Env) (llm : Nat → Str × Str) (prompt : Str) (rem k : Nat)
      (scratchpad : Str) (steps : List StepRecord),
      finishGroup (parseReactOutput (llm k).1).action = none →
      lowerStr (parseReactOutput (llm k).1).action = "finish".data →
      runLoop env llm prompt (rem + 1) k scratchpad steps =
        ((parseReactOutput (llm k).1).actionInput,
         steps ++ [orchStep llm prompt scratchpad k], k + 1)) ∧
    ((run envW llmFinish1 "hi".data).1 = "Hello there!".data ∧
     (run envW llmFinish1 "hi".data).2.1.length = 1) :=
  ⟨runLoop_finish, runLoop_bare_finish, by decide⟩

theorem c2_witness :
    runLoop envW llmFinish1 "hi".data (4 + 1) 0 [] [] =
      ("Hello there!".data, [] ++ [orchStep llmFinish1 "hi".data [] 0], 0 + 1) :=
  c2_finish_interception.1 envW llmFinish1 "hi".data 4 0 [] [] "Hello there!".data
    (by decide)

/-- C3 (counterexample): the parser takes the text after the FIRST
`Action Input:` marker, not the last, and the `thought` field does not
stop at an inline `Action:` with no preceding newline — on
`"Thought: a Action:\nAction Input: c\nAction Input: d"` the claim
predicts `actionInput = "d"` and `thought = "a"`, but the code yields
`"c\nAction Input: d"` and the whole tail respectively. -/
theorem c3_counterexample :
    (parseReactOutput "Thought: a Action:\nAction Input: c\nAction Input: d".data).actionInput =
      "c\nAction Input: d".data ∧
    lastMarkerInput "Thought: a Action:\nAction Input: c\nAction Input: d".data = "d".data ∧
    "c\nAction Input: d".data ≠ "d".data ∧
    (parseReactOutput "Thought: a Action:\nAction Input: c\nAction Input: d".data).thought ≠
      "a".data := by
  refine ⟨by decide, by decide, by decide, by decide⟩

/-- C3 (amended): for every input text, `thought` is the trimmed text
after the first `Thought:` marker — after skipping whitespace, up to the
first newline-prefixed `\nAction:` marker or end of text; `action` is
likewise the text after the first `Action:` marker up to the first
`\nAction Input:` marker; `actionInput` is the trimmed text after the
FIRST `Action Input:` marker to end of text; any missing marker leaves
its field empty, and no exception is raised (the parser is total). -/
theorem c3_amended_parser_spec :
    ∀ text : Str,
      parseReactOutput text =
        ⟨directField "Thought:".data "\nAction:".data text,
         directField "Action:".data "\nAction Input:".data text,
         directInput text⟩ :=
  parse_eq_direct

/-- C4: a dispatched specialist call whose backend invocation fails
appends exactly one synthetic StepRecord (module = specialist name,
prompt = the task, response = the error text) and returns the
observation `"Error calling <name>: <error>"`; the failure never
escapes `_execute_action`. -/
theorem c4_specialist_failure_recorded :
    ∀ (env : Env) (action actionInput : Str) (steps : List StepRecord)
      (name task e : Str),
      classifySpecialist action actionInput = some (name, task) →
      name ≠ [] → task ≠ [] →
      env.runSpecialist name task (specialistContext env name task) = .error e →
      executeAction env action actionInput steps =
        ("Error calling ".data ++ name ++ ": ".data ++ e,
         steps ++ [{ module := name, prompt := .task task, response := .error e }]) := by
  intro env action actionInput steps name task e hc hn ht herr
  rw [executeAction_specialist env action actionInput steps name task hc hn ht, herr]

theorem c4_witness :
    executeAction envW "call_specialist(nutrition, plan)".data [] [] =
      ("Error calling ".data ++ "Nutrition Expert".data ++ ": ".data ++ "boom".data,
       [] ++ [{ module := "Nutrition Expert".data, prompt := .task "plan".data,
                response := .error "boom".data }]) :=
  c4_specialist_failure_recorded envW "call_specialist(nutrition, plan)".data [] []
    "Nutrition Expert".data "plan".data "boom".data (by decide) (by decide) (by decide)
    rfl

/-- C5: `dispatch("call_specialist(nutrition, plan a high-protein
breakfast)", "", trail)` normalizes the name to `"Nutrition Expert"`,
invokes the specialist backend with the nutrition-retrieval context for
the task injected, and appends exactly one StepRecord; in general a
successful CallSpecialist classification gives Nutrition Expert the
nutrition-retrieval context, Science Researcher the research-retrieval
context, and any other identity no injected context. -/
theorem c5_call_specialist_context :
    (∀ (env : Env) (steps : List StepRecord),
      executeAction env
        "call_specialist(nutrition, plan a high-protein breakfast)".data [] steps =
        match env.runSpecialist "Nutrition Expert".data
            "plan a high-protein breakfast".data
            (env.getNutritionContext "plan a high-protein breakfast".data) with
        | .ok (respText, rec) => (respText, steps ++ [rec])
        | .error e =>
          ("Error calling ".data ++ "Nutrition Expert".data ++ ": ".data ++ e,
           steps ++ [{ module := "Nutrition Expert".data,
                       prompt := .task "plan a high-protein breakfast".data,
                       response := .error e }])) ∧
    (∀ (env : Env) (action actionInput : Str) (steps : List StepRecord)
      (name task : Str),
      classifySpecialist action actionInput = some (name, task) →
      name ≠ [] → task ≠ [] →
      executeAction env action actionInput steps =
        match env.runSpecialist name task (specialistContext env name task) with
        | .ok (respText, rec) => (respText, steps ++ [rec])
        | .error e =>
          ("Error calling ".data ++ name ++ ": ".data ++ e,
           steps ++ [{ module := name, prompt := .task task,
                       response := .error e }])) ∧
    (∀ (env : Env) (task : Str),
      specialistContext env "Nutrition Expert".data task =
        env.getNutritionContext task ∧
      specialistContext env "Science Researcher".data task =
        env.getResearchContext task) ∧
    (∀ (env : Env) (name task : Str),
      name ≠ "Nutrition Expert".data → name ≠ "Science Researcher".data →
      specialistContext env name task = []) := by
  refine ⟨?_, ?_, ?_, ?_⟩
  · intro env steps
    have h := executeAction_specialist env
      "call_specialist(nutrition, plan a high-protein breakfast)".data []
      steps "Nutrition Expert".data "plan a high-protein breakfast".data
      (by decide) (by decide) (by decide)
    have hctx : specialistContext env "Nutrition Expert".data
        "plan a high-protein breakfast".data =
        env.getNutritionContext "plan a high-protein breakfast".data := by
      rw [specialistContext, if_pos rfl]
    rw [h, hctx]
  · intro env action actionInput steps name task hc hn ht
    exact executeAction_specialist env action actionInput steps name task hc hn ht
  · intro env task
    constructor
    · rw [specialistContext, if_pos rfl]
    · rw [specialistContext, if_neg (by decide), if_pos rfl]
  · intro env name task hn hr
    rw [specialistContext, if_neg hn, if_neg hr]

theorem c5_witness :
    executeAction envOk "call_specialist(science, check evidence)".data [] [] =
      match envOk.runSpecialist "Science Researcher".data "check evidence".data
          (specialistContext envOk "Science Researcher".data "check evidence".data) with
      | .ok (respText, rec) => (respText, ([] : List StepRecord) ++ [rec])
      | .error e =>
        ("Error calling ".data ++ "Science Researcher".data ++ ": ".data ++ e,
         ([] : List StepRecord) ++
           [StepRecord.mk "Science Researcher".data
             (.task "check evidence".data) (.error e)]) :=
  c5_call_specialist_context.2.1 envOk "call_specialist(science, check evidence)".data
    [] [] "Science Researcher".data "check evidence".data (by decide) (by decide)
    (by decide)

/-- C6: every alias key, in any letter case and wrapped in any
whitespace, normalizes to its canonical specialist name; any string
whose trimmed lower-cased form is not in the table normalizes to the
trimmed (not lower-cased) original. -/
theorem c6_normalizer :
    (∀ (w1 c w2 key canon : Str),
      (∀ x ∈ w1, pyWs x = true) → (∀ x ∈ w2, pyWs x = true) →
      lowerStr c = key →
      SPECIALIST_ALIASES.lookup key = some canon →
      normalizeSpecialist (w1 ++ c ++ w2) = canon) ∧
    (∀ s : Str, SPECIALIST_ALIASES.lookup (lowerStr (pyStrip s)) = none →
      normalizeSpecialist s = pyStrip s) :=
  ⟨normalize_alias, normalize_miss⟩

theorem c6_witness :
    normalizeSpecialist ("  ".data ++ "NuTrItIoN".data ++ " \t".data) =
      "Nutrition Expert".data ∧
    normalizeSpecialist "Bob".data = pyStrip "Bob".data :=
  ⟨c6_normalizer.1 "  ".data "NuTrItIoN".data " \t".data "nutrition".data
      "Nutrition Expert".data (by decide) (by decide) (by decide) (by decide),
   c6_normalizer.2 "Bob".data (by decide)⟩

/-- C7: a dispatched `search_nutrition(<query>)` or
`search_research(<query>)` whose retrieval lookup comes back empty
yields the literal `"No nutrition data found."` / `"No research data
found."` observation, and the observation for these actions is never
the empty string. -/
theorem c7_search_observations :
    (∀ (env : Env) (action actionInput : Str) (steps : List StepRecord) (q : Str),
      matchToks snPat action = some [q] →
      executeAction env action actionInput steps =
        (if env.getNutritionContext q = [] then "No nutrition data found.".data
         else env.getNutritionContext q, steps) ∧
      (executeAction env action actionInput steps).1 ≠ []) ∧
    (∀ (env : Env) (action actionInput : Str) (steps : List StepRecord) (q : Str),
      matchToks srPat action = some [q] →
      executeAction env action actionInput steps =
        (if env.getResearchContext q = [] then "No research data found.".data
         else env.getResearchContext q, steps) ∧
      (executeAction env action actionInput steps).1 ≠ []) := by
  constructor
  · intro env action actionInput steps q h
    have he := executeAction_search_nutrition env action actionInput steps q h
    refine ⟨he, ?_⟩
    rw [he]
    by_cases hz : env.getNutritionContext q = []
    · rw [if_pos hz]
      show "No nutrition data found.".data ≠ []
      decide
    · rw [if_neg hz]
      exact hz
  · intro env action actionInput steps q h
    have he := executeAction_search_research env action actionInput steps q h
    refine ⟨he, ?_⟩
    rw [he]
    by_cases hz : env.getResearchContext q = []
    · rw [if_pos hz]
      show "No research data found.".data ≠ []
      decide
    · rw [if_neg hz]
      exact hz

theorem c7_witness :
    (executeAction envW "search_nutrition(banana calories)".data [] [] =
      (if envW.getNutritionContext "banana calories".data = []
       then "No nutrition data found.".data
       else envW.getNutritionContext "banana calories".data, []) ∧
    (executeAction envW "search_nutrition(banana calories)".data [] []).1 ≠ []) :=
  c7_search_observations.1 envW "search_nutrition(banana calories)".data [] []
    "banana calories".data (by decide)

/-- C8 (counterexample): calling dispatch directly with action
`finish(All done!)` and empty actionInput returns the empty observation
`""`, not `"All done!"` — the finish branch returns `action_input`
unchanged, which is empty here. -/
theorem c8_counterexample :
    executeAction envW "finish(All done!)".data [] [] = ([], []) ∧
    ([] : Str) ≠ "All done!".data :=
  ⟨rfl, by decide⟩

/-- C8 (amended): calling dispatch directly with action
`finish(All done!)` returns the actionInput unchanged as the
observation — so with empty actionInput the observation is `""`. -/
theorem c8_amended_finish_returns_input :
    ∀ (env : Env) (actionInput : Str) (steps : List StepRecord),
      executeAction env "finish(All done!)".data actionInput steps =
        (actionInput, steps) :=
  fun _ _ _ => rfl

/-- C9: a turn whose parsed action is exactly `finish()` does not trigger
the finish check — the call pattern needs a non-empty response and the
bare-word test needs exactly `finish` — so the turn falls through to
dispatch, the observation is the actionInput, and the loop continues to
the next iteration instead of returning. -/
theorem c9_finish_empty_parens_falls_through :
    ∀ (env : Env) (llm : Nat → Str × Str) (prompt : Str) (rem k : Nat)
      (scratchpad : Str) (steps : List StepRecord),
      (parseReactOutput (llm k).1).action = "finish()".data →
      runLoop env llm prompt (rem + 1) k scratchpad steps =
        runLoop env llm prompt rem (k + 1)
          (scratchpad ++ "\nThought: ".data ++ (parseReactOutput (llm k).1).thought ++
            "\nAction: ".data ++ (parseReactOutput (llm k).1).action ++
            "\nAction Input: ".data ++ (parseReactOutput (llm k).1).actionInput ++
            "\nObservation: ".data ++ (parseReactOutput (llm k).1).actionInput ++
            "\n".data)
          (steps ++ [orchStep llm prompt scratchpad k]) := by
  intro env llm prompt rem k sc st ha
  have hn : finishGroup (parseReactOutput (llm k).1).action = none := by
    rw [ha]
    decide
  have hb : lowerStr (parseReactOutput (llm k).1).action ≠ "finish".data := by
    rw [ha]
    decide
  rw [runLoop_continue env llm prompt rem k sc st hn hb, ha]
  have hexec : executeAction env "finish()".data
      (parseReactOutput (llm k).1).actionInput (st ++ [orchStep llm prompt sc k]) =
      ((parseReactOutput (llm k).1).actionInput,
       st ++ [orchStep llm prompt sc k]) := rfl
  rw [hexec]

theorem c9_witness :
    runLoop envW llmFinishParen "p".data (0 + 1) 0 [] [] =
      runLoop envW llmFinishParen "p".data 0 (0 + 1)
        ([] ++ "\nThought: ".data ++ (parseReactOutput (llmFinishParen 0).1).thought ++
          "\nAction: ".data ++ (parseReactOutput (llmFinishParen 0).1).action ++
          "\nAction Input: ".data ++ (parseReactOutput (llmFinishParen 0).1).actionInput ++
          "\nObservation: ".data ++ (parseReactOutput (llmFinishParen 0).1).actionInput ++
          "\n".data)
        ([] ++ [orchStep llmFinishParen "p".data [] 0]) :=
  c9_finish_empty_parens_falls_through envW llmFinishParen "p".data 0 0 [] []
    (by show (parseReactOutput ("Action: finish()\nAction Input: hi".data,
        ("r".data : Str)).1).action = "finish()".data
        decide)

/-- C10: the specialist-name normalizer is idempotent — normalizing an
already-normalized name changes nothing; in particular every canonical
specialist name normalizes to itself. -/
theorem c10_normalize_idempotent :
    ∀ s : Str, normalizeSpecialist (normalizeSpecialist s) = normalizeSpecialist s :=
  normalizeSpecialist_idem
